import Mathlib

/-!
Verification of the `infinite_site` crawler (`src/mcp_server/src/mcp_server/infinite_site.py`).

The Python module is shallowly embedded below.  Pure helpers (`_clean_url`,
`_extract_links`, `_extract_text`, `_clamp_limits`, `_same_origin`) become Lean
functions over `String`/`List Char`; the regular expressions the source uses are
embedded as explicit character-level matchers with Python `re` semantics
(leftmost scan, non-overlapping, non-greedy handled as first-occurrence search).
Effectful parts are embedded with their effects made explicit:
the network is a `fetch : String → Option String` oracle (`None` models any
request failure, exactly the `_fetch` contract), disk persistence is modelled at
the JSON-value level, `robots.txt` state is the CPython
`urllib.robotparser.RobotFileParser` state machine, and the
`asyncio.wait_for` deadline is a boolean `timedOut` input selecting the
`except asyncio.TimeoutError` branch.  The BFS loop is fuel-indexed; theorems
quantify over the fuel, which covers every prefix of the loop's execution.
-/

/-! ## Constants (infinite_site.py lines 22-27) -/

def BASE_URL : String := "https://www.infinite.com/"

def MAX_PAGES : Int := 40

def MAX_DEPTH : Int := 2

def INDEX_VERSION : Int := 1

/-! ## Character/string utilities -/

/-- Backslash character, written via its code point. -/
def backslashChar : Char := Char.ofNat 92

/-- Newline character. -/
def newlineChar : Char := Char.ofNat 10

/-- Double-quote character. -/
def dquoteChar : Char := Char.ofNat 34

/-- Single-quote character. -/
def squoteChar : Char := Char.ofNat 39

/-- Python `str.strip()` on a character list: drop leading and trailing
whitespace. -/
def stripChars (cs : List Char) : List Char :=
  ((cs.dropWhile Char.isWhitespace).reverse.dropWhile Char.isWhitespace).reverse

/-- Python `str.lower()` (over the ASCII letters these inputs use). -/
def lowerStr (s : String) : String :=
  String.mk (s.data.map Char.toLower)

/-- `listIsPrefix pat cs` is true when `pat` is a prefix of `cs`. -/
def listIsPrefix : List Char → List Char → Bool
  | [], _ => true
  | _ :: _, [] => false
  | p :: ps, c :: cs => p == c && listIsPrefix ps cs

/-- `strStartsWith s pre`: `s` starts with `pre` (Python `str.startswith`). -/
def strStartsWith (s pre : String) : Bool :=
  listIsPrefix pre.data s.data

/-- First index at which `pat` occurs in `text` as a contiguous block. -/
def findSubstrIdx (pat : List Char) : List Char → Option Nat
  | [] => if pat.isEmpty then some 0 else none
  | c :: cs =>
    if listIsPrefix pat (c :: cs) then some 0
    else (findSubstrIdx pat cs).map (· + 1)

/-- `listHasSubstr pat cs`: `pat` occurs somewhere in `cs` (Python `in`). -/
def listHasSubstr (pat cs : List Char) : Bool :=
  (findSubstrIdx pat cs).isSome

/-- Keep the first occurrence of each element, dropping later duplicates.
Models materialising a Python `set` that was filled by iterating a list;
set iteration order is modelled as first-insertion order. -/
def dedupKeepFirst (seen : List String) : List String → List String
  | [] => []
  | a :: as =>
    if a ∈ seen then dedupKeepFirst seen as
    else a :: dedupKeepFirst (a :: seen) as

/-! ## URL parsing (model of `urllib.parse`, restricted)

`_same_origin` and `robotparser` only need the `scheme` and `netloc` fields of
`urlparse` and the path portion of the URL, and `_extract_links` needs
`urljoin`.  The models below follow CPython's `urllib.parse` for ordinary
`scheme://netloc/path?query#fragment` URLs; percent-encoding (`quote` /
`unquote`) is modelled as the identity, which is faithful for URLs containing
no percent-escapes and no characters that `quote` rewrites. -/

/-- Characters allowed in a URL scheme (CPython `scheme_chars`). -/
def schemeChar (c : Char) : Bool :=
  c.isAlpha || c.isDigit || c == '+' || c == '-' || c == '.'

/-- Helper for `splitScheme`: scan up to the first colon, requiring every
preceding character to be a scheme character. -/
def splitSchemeAux : List Char → List Char → Option (List Char × List Char)
  | _, [] => none
  | acc, c :: cs =>
    if c == ':' then (if acc.isEmpty then none else some (acc.reverse, cs))
    else if schemeChar c then splitSchemeAux (c :: acc) cs
    else none

/-- Split a URL into its (lowercased) scheme and the remainder after the colon,
as `urllib.parse.urlsplit` does: the text before the first `:` must begin with
a letter and consist of scheme characters. -/
def splitScheme (url : String) : Option String × String :=
  match url.data with
  | [] => (none, url)
  | c :: _ =>
    if c.isAlpha then
      match splitSchemeAux [] url.data with
      | some (sch, rest) => (some (String.mk (sch.map Char.toLower)), String.mk rest)
      | none => (none, url)
    else (none, url)

/-- The scheme of a URL, or `""` (Python `urlparse(url).scheme`). -/
def urlScheme (url : String) : String :=
  ((splitScheme url).1).getD ""

/-- True on the characters that terminate a netloc. -/
def netlocEnd (c : Char) : Bool :=
  c == '/' || c == '?' || c == '#'

/-- The netloc of a URL, or `""` (Python `urlparse(url).netloc`): present only
after a `//`, running to the first `/`, `?` or `#`. -/
def urlNetloc (url : String) : String :=
  let rest := (splitScheme url).2
  if strStartsWith rest "//" then
    String.mk ((rest.data.drop 2).takeWhile (fun c => !netlocEnd c))
  else ""

/-- Everything after the netloc: the `path;params?query#fragment` portion,
which is what `RobotFileParser.can_fetch` rebuilds with `urlunparse`. -/
def urlAfterNetloc (url : String) : String :=
  let rest := (splitScheme url).2
  if strStartsWith rest "//" then
    String.mk ((rest.data.drop 2).dropWhile (fun c => !netlocEnd c))
  else rest

/-- The path of a URL: the after-netloc portion truncated at `?` or `#`. -/
def urlPath (url : String) : String :=
  String.mk ((urlAfterNetloc url).data.takeWhile (fun c => !(c == '?' || c == '#')))

/-- Drop the last `/`-separated segment of a path, keeping the slash;
`""` when the path has no slash. -/
def dropLastSegment (path : String) : String :=
  String.mk ((path.data.reverse.dropWhile (fun c => !(c == '/'))).reverse)

/-- Model of `urllib.parse.urljoin`, restricted to the reference forms the
crawler meets: absolute URLs (returned as given; CPython would additionally
lowercase their scheme), network-path references (`//…`), absolute-path
references (`/…`), and plain relative references without `.`/`..` dot-segments
(resolved against the base path with its last segment dropped; an empty base
path acts as `/`). -/
def urljoin (base url : String) : String :=
  if url = "" then base
  else
    match (splitScheme url).1 with
    | some _ => url
    | none =>
      if strStartsWith url "//" then urlScheme base ++ ":" ++ url
      else
        let root := urlScheme base ++ "://" ++ urlNetloc base
        if strStartsWith url "/" then root ++ url
        else
          let dir := dropLastSegment (urlPath base)
          root ++ (if dir = "" then "/" else dir) ++ url

/-! ## infinite_site.py pure helpers -/

/-- `_same_origin` (lines 50-53): scheme and netloc equal to `BASE_URL`'s. -/
def _same_origin (url : String) : Bool :=
  urlScheme url == urlScheme BASE_URL && urlNetloc url == urlNetloc BASE_URL

/-- `_clean_url` (lines 56-57): `url.split("#", 1)[0].rstrip("/")`. -/
def _clean_url (url : String) : String :=
  String.mk (((url.data.takeWhile (· ≠ '#')).reverse.dropWhile (· == '/')).reverse)

/-! ## Regular-expression machinery

The crawler uses three `re` patterns.  Each is embedded as a matcher
`List Char → Option (List Char)` returning the remainder after a match at the
head of the input (or `none`), combined with `subAll` / `hrefCaptures`, which
reproduce `re.sub` / `re.findall` scanning: try a match at each position, on
success emit/replace and resume after the match, on failure advance one
character.  Non-greedy pieces (`[^>]*?>`, `.*?LIT`) are first-occurrence
searches; `(?i)` is handled by case-folding letters; `(?s)` lets `.` match
newlines (relevant to `_extract_text`; `_extract_links` has no `(?s)`, so its
`.*?` excludes newlines). -/

/-- Case-insensitive prefix match: `pat` must be given lowercased; returns the
remainder of `cs` after the matched prefix. -/
def matchPrefixCI : List Char → List Char → Option (List Char)
  | [], cs => some cs
  | _ :: _, [] => none
  | p :: ps, c :: cs => if c.toLower == p then matchPrefixCI ps cs else none

/-- Consume through the first `>` (the non-greedy `[^>]*?>` / `[^>]+>` tail);
`none` when no `>` remains. -/
def dropUntilGt : List Char → Option (List Char)
  | [] => none
  | c :: cs => if c == '>' then some cs else dropUntilGt cs

/-- Consume through the first occurrence of the literal `pat`
(the non-greedy `.*?pat` with `(?s)`); `none` when `pat` never occurs. -/
def dropThroughLiteral (pat : List Char) : List Char → Option (List Char)
  | [] => if pat.isEmpty then some [] else none
  | c :: cs =>
    if listIsPrefix pat (c :: cs) then some ((c :: cs).drop pat.length)
    else dropThroughLiteral pat cs

/-- Matcher for the script/style pattern of `_extract_text` (line 75), written
in the source as the raw string `r"(?is)<(script|style)[^>]*?>.*?</\\1>"`.
Inside a raw string `\\1` is two characters, which `re` reads as an escaped
backslash followed by the literal digit `1` — NOT a backreference — so a match
must end with the five literal characters `<`, `/`, `\`, `1`, `>`. -/
def matchScriptStyleAt (cs : List Char) : Option (List Char) :=
  match cs with
  | '<' :: rest =>
    let afterKw :=
      match matchPrefixCI "script".data rest with
      | some r => some r
      | none => matchPrefixCI "style".data rest
    match afterKw with
    | none => none
    | some r =>
      match dropUntilGt r with
      | none => none
      | some r2 => dropThroughLiteral ['<', '/', backslashChar, '1', '>'] r2
  | _ => none

/-- Matcher for the tag-stripping pattern `(?is)<[^>]+>` (line 79). -/
def matchTagAt : List Char → Option (List Char)
  | '<' :: c :: rest => if c == '>' then none else dropUntilGt (c :: rest)
  | _ => none

/-- `re.sub(pattern, " ", s)`: left-to-right non-overlapping scan, replacing
each match by a single space.  `fuel` bounds recursion (both matchers consume
at least one character, so `fuel = length` processes the whole input). -/
def subAll (matchAt : List Char → Option (List Char)) : Nat → List Char → List Char
  | 0, _ => []
  | _, [] => []
  | fuel + 1, c :: cs =>
    match matchAt (c :: cs) with
    | some rest => ' ' :: subAll matchAt fuel rest
    | none => c :: subAll matchAt fuel cs

/-- Capture one `href=["\'](.*?)["\']` match at the head of the input: after
`href=` and an opening quote of either kind, the non-greedy group runs to the
nearest following quote of either kind; `.` cannot cross a newline.  Returns
the captured text and the remainder after the whole match. -/
def captureUntilQuote : List Char → List Char → Option (List Char × List Char)
  | [], _ => none
  | c :: cs, acc =>
    if c == dquoteChar || c == squoteChar then some (acc.reverse, cs)
    else if c == newlineChar then none
    else captureUntilQuote cs (c :: acc)

/-- Attempt the full href pattern (case-insensitive on `href=`) at the head. -/
def hrefMatchAt (cs : List Char) : Option (List Char × List Char) :=
  match matchPrefixCI "href=".data cs with
  | none => none
  | some r1 =>
    match r1 with
    | [] => none
    | q :: r2 =>
      if q == dquoteChar || q == squoteChar then captureUntilQuote r2 []
      else none

/-- `re.findall` for the href pattern: all captures, in scan order. -/
def hrefCaptures : Nat → List Char → List String
  | 0, _ => []
  | _, [] => []
  | fuel + 1, c :: cs =>
    match hrefMatchAt (c :: cs) with
    | some (cap, rest) => String.mk cap :: hrefCaptures fuel rest
    | none => hrefCaptures fuel cs

/-- `_extract_links` (lines 60-67): scan the first 200000 characters for href
values, resolve each against `base`, normalize with `_clean_url`, and keep the
result only when it starts with `BASE_URL` and is same-origin.  The Python
function accumulates into a `set`; the model returns the deduplicated list in
first-insertion order. -/
def _extract_links (html base : String) : List String :=
  let cs := html.data.take 200000
  let captures := hrefCaptures cs.length cs
  let kept := (captures.map (fun h => _clean_url (urljoin base h))).filter
    (fun a => strStartsWith a BASE_URL && _same_origin a)
  dedupKeepFirst [] kept

/-! ## Text extraction (`TextExtractor` + `_extract_text`, lines 34-47, 70-82)

After the two `re.sub` passes the string is fed once to an
`html.parser.HTMLParser` subclass that overrides only `handle_data`, collecting
each stripped non-empty data run; `close()` is never called, so input buffered
while waiting for the end of an incomplete construct is discarded.  The parser
stage below models CPython's `goahead` for the strings this pipeline can
produce: character-reference unescaping is modelled as the identity (faithful
when the text contains no `&`), and a `<` opening a tag-like construct
(`letter`, `/`, `!` or `?` next) consumes through the next `>` with no data
event, or buffers to the end of input when no `>` remains.  Tag-stripped input
never contains a complete tag, so the quoted-attribute and CDATA
(`<script>`/`<style>` content mode) refinements of the real parser are
unreachable here and are not modelled. -/

/-- `TextExtractor.handle_data` (lines 41-44): strip, keep if non-empty. -/
def handleData (texts : List String) (data : List Char) : List String :=
  let stripped := String.mk (stripChars data)
  if stripped = "" then texts else texts ++ [stripped]

/-- Characters that open a real construct after `<` in `HTMLParser`:
start tag, end tag, declaration/comment, or processing instruction. -/
def tagOpener (c : Char) : Bool :=
  c.isAlpha || c == '/' || c == '!' || c == '?'

/-- The `HTMLParser.goahead` loop, restricted as described above. -/
def feedGo : Nat → List Char → List String → List String
  | 0, _, texts => texts
  | _, [], texts => texts
  | fuel + 1, cs, texts =>
    let dataPart := cs.takeWhile (· ≠ '<')
    let texts1 := if dataPart.isEmpty then texts else handleData texts dataPart
    match cs.dropWhile (· ≠ '<') with
    | [] => texts1
    | _ :: rest =>
      match rest with
      | [] => texts1
      | c :: _ =>
        if tagOpener c then
          match dropUntilGt rest with
          | some r => feedGo fuel r texts1
          | none => texts1
        else feedGo fuel rest (handleData texts1 ['<'])

/-- `_extract_text` (lines 70-82): truncate to 200000 characters, apply the
(broken, see `matchScriptStyleAt`) script/style `re.sub`, strip remaining tags
with `re.sub`, feed the result to `TextExtractor`, and join the collected runs
with single spaces (`get_text`, line 47). -/
def _extract_text (html : String) : String :=
  let s0 := html.data.take 200000
  let s1 := subAll matchScriptStyleAt s0.length s0
  let s2 := subAll matchTagAt s1.length s1
  String.intercalate " " (feedGo (s2.length + 1) s2 [])

/-! ## `_clamp_limits` (lines 94-97) -/

/-- `_clamp_limits`: `(max(1, min(max_pages, 40)), max(0, min(max_depth, 2)))`. -/
def _clamp_limits (max_pages max_depth : Int) : Int × Int :=
  (max 1 (min max_pages MAX_PAGES), max 0 (min max_depth MAX_DEPTH))

/-! ## Robots gate (model of `urllib.robotparser.RobotFileParser`)

The crawler builds a `RobotFileParser`, points it at
`urljoin(BASE_URL, "/robots.txt")` and calls `read()` inside
`try: ... except Exception: pass` (lines 157-163).  CPython's `read()` catches
only `urllib.error.HTTPError`; any other failure (DNS error, refused
connection, timeout — all `URLError`s — or a decode error) propagates to the
crawler's bare `except` and leaves the parser in its freshly-initialised
state: `disallow_all = allow_all = False`, `last_checked = 0`, no entries.
`can_fetch` is modelled line for line; the URL normalisation it performs
(unquote / unparse / quote) is `urlAfterNetloc` with percent-encoding as the
identity. -/

/-- One `Allow:`/`Disallow:` line (CPython `RuleLine`). -/
structure RuleLine where
  path : String
  allowance : Bool
deriving Repr, DecidableEq

/-- One user-agent group (CPython `Entry`). -/
structure RobotsEntry where
  useragents : List String
  rulelines : List RuleLine
deriving Repr, DecidableEq

/-- The `RobotFileParser` state after `__init__` (field defaults). -/
structure RobotFileParser where
  disallow_all : Bool := false
  allow_all : Bool := false
  last_checked : Nat := 0
  entries : List RobotsEntry := []
  default_entry : Option RobotsEntry := none
deriving Repr, DecidableEq

/-- `RuleLine.applies_to`: `path == "*" or filename.startswith(path)`. -/
def ruleLineApplies (line : RuleLine) (filename : String) : Bool :=
  line.path == "*" || strStartsWith filename line.path

/-- `Entry.applies_to`: match on the agent name before any `/`, lowercased. -/
def entryApplies (e : RobotsEntry) (useragent : String) : Bool :=
  let ua := (useragent.data.takeWhile (· ≠ '/')).map Char.toLower
  e.useragents.any (fun agent => agent == "*" || listHasSubstr (lowerStr agent).data ua)

/-- `Entry.allowance`: first applicable rule line wins; default allow. -/
def entryAllowance (e : RobotsEntry) (filename : String) : Bool :=
  match e.rulelines.find? (fun line => ruleLineApplies line filename) with
  | some line => line.allowance
  | none => true

/-- `RobotFileParser.can_fetch`, including the guard CPython documents as
"Until the robots.txt file has been read or found not to exist, we must assume
that no url is acceptable": with `last_checked == 0` every URL is refused. -/
def canFetch (r : RobotFileParser) (useragent url : String) : Bool :=
  if r.disallow_all then false
  else if r.allow_all then true
  else if r.last_checked = 0 then false
  else
    let f := urlAfterNetloc url
    let f := if f = "" then "/" else f
    match r.entries.find? (fun e => entryApplies e useragent) with
    | some e => entryAllowance e f
    | none =>
      match r.default_entry with
      | some e => entryAllowance e f
      | none => true

/-- The parser state the crawl runs with when `robots.read()` raises:
exactly the `__init__` defaults (the bug behind claim C1). -/
def robotsAfterFailedRead : RobotFileParser := {}

/-- The parser state after successfully reading an empty (or absent-rule)
robots.txt: `parse` ran, so `last_checked` is set, and no entries exist. -/
def robotsEmptyPolicy : RobotFileParser := { last_checked := 1 }

/-! ## Index documents and persistence (lines 29-31, 100-134)

`_index` holds dicts `{"url": ..., "text": ...}`; persistence serialises the
payload with `json.dumps` and reads it back with `json.loads`.  The snapshot is
modelled at the JSON-value level (a `Json` value stands for the file's parsed
contents; `json.loads ∘ json.dumps` is the identity on these payloads), and the
file system is explicit: `_save_index_to_disk` returns the flag the Python
function returns together with the payload written (`none` when nothing is
written), and `_load_index_from_disk` takes the file's contents as
`Option Json`, `none` standing for an absent or unparsable file. -/

/-- A crawled page: `{"url": ..., "text": ...}`. -/
structure Page where
  url : String
  text : String
deriving Repr, DecidableEq

/-- The fragment of JSON these payloads use. -/
inductive Json where
  | null : Json
  | str : String → Json
  | int : Int → Json
  | arr : List Json → Json
  | obj : List (String × Json) → Json

/-- `dict.get`: first binding of the key, if any (keys are unique in dicts). -/
def jsonGet : List (String × Json) → String → Option Json
  | [], _ => none
  | (k, v) :: kvs, key => if k = key then some v else jsonGet kvs key

/-- Python truthiness on the modelled JSON fragment. -/
def jsonTruthy : Json → Bool
  | .null => false
  | .str s => s ≠ ""
  | .int n => n ≠ 0
  | .arr xs => !xs.isEmpty
  | .obj kvs => !kvs.isEmpty

/-- A page as the dict `_save_index_to_disk` serialises. -/
def pageToJson (p : Page) : Json :=
  .obj [("url", .str p.url), ("text", .str p.text)]

/-- The payload written by `_save_index_to_disk` (lines 105-110); `ts` is the
`datetime.now(timezone.utc).isoformat()` string. -/
def savePayload (index : List Page) (ts : String) : Json :=
  .obj [("version", .int INDEX_VERSION), ("created_at", .str ts),
        ("base_url", .str BASE_URL), ("pages", .arr (index.map pageToJson))]

/-- `_save_index_to_disk` (lines 100-114): `False` and no write when the index
is empty; otherwise write the payload, with `diskOk = false` modelling the
`except Exception` path (mkdir/write failure), which also returns `False`. -/
def _save_index_to_disk (index : List Page) (diskOk : Bool) (ts : String) :
    Bool × Option Json :=
  if index = [] then (false, none)
  else if diskOk then (true, some (savePayload index ts))
  else (false, none)

/-- `p.get("url", "")` on the modelled fragment: the value when it is a
string, `""` when the key is absent.  (A present non-string value, which
Python would store unchanged, is outside the modelled payload fragment.) -/
def strOrEmpty : Option Json → String
  | some (.str s) => s
  | _ => ""

/-- One element of the `pages` list; `none` models the `AttributeError` raised
by `p.get` when the element is not a dict, which aborts the whole load. -/
def pageOfJson : Json → Option Page
  | .obj kvs => some { url := strOrEmpty (jsonGet kvs "url"),
                       text := strOrEmpty (jsonGet kvs "text") }
  | _ => none

/-- The list comprehension of line 129-131; `none` when any element raises. -/
def pagesOfJson : List Json → Option (List Page)
  | [] => some []
  | j :: js =>
    match pageOfJson j, pagesOfJson js with
    | some p, some ps => some (p :: ps)
    | _, _ => none

/-- The parsing part of `_load_index_from_disk` (lines 124-134): version check
(`payload.get("version") != INDEX_VERSION` → give up), `payload.get("pages")
or []`, the `isinstance(pages, list)` guard, and the comprehension; any raise
ends with `_index = []`. -/
def loadPages (payload : Json) : List Page :=
  match payload with
  | .obj kvs =>
    let versionOk := match jsonGet kvs "version" with
      | some (.int n) => n == INDEX_VERSION
      | _ => false
    if versionOk then
      let pagesVal := match jsonGet kvs "pages" with
        | some v => if jsonTruthy v then v else Json.arr []
        | none => Json.arr []
      match pagesVal with
      | .arr xs => (pagesOfJson xs).getD []
      | _ => []
    else []
  | _ => []

/-- `_load_index_from_disk` given the snapshot file's contents (`none`: file
absent or `json.loads` failed); called with an empty in-memory index. -/
def _load_index_from_disk (file : Option Json) : List Page :=
  match file with
  | none => []
  | some payload => loadPages payload

/-! ## The crawl scheduler (`_run_crawl`, lines 156-214)

State of the BFS loop.  `trace` is a ghost field recording every dequeued
`(url, depth)` pair in order; it receives the popped pair in every branch and
influences nothing, existing only so temporal claims can be stated. -/

structure CrawlState where
  queue : List (String × Nat)
  seen : List String
  index : List Page
  trace : List (String × Nat)
deriving Repr, DecidableEq

/-- `start_url = _clean_url(BASE_URL)` (line 166). -/
def startUrl : String := _clean_url BASE_URL

/-- Lines 165-168: queue seeded with `(start_url, 0)`, start URL pre-seen. -/
def initialCrawlState : CrawlState :=
  { queue := [(startUrl, 0)], seen := [startUrl], index := [], trace := [] }

/-- Lines 188-191: enqueue each extracted link not yet seen, marking it seen,
at the given depth (`depth + 1` at the call site). -/
def enqueueLinks (d : Nat) : List String → List String → List (String × Nat) →
    List String × List (String × Nat)
  | [], seen, q => (seen, q)
  | l :: ls, seen, q =>
    if l ∈ seen then enqueueLinks d ls seen q
    else enqueueLinks d ls (seen ++ [l]) (q ++ [(l, d)])

/-- One iteration of the `while` body (lines 174-191): pop, drop when too deep,
drop when robots refuses, drop when the fetch fails; otherwise extract text
(appending a document when non-empty) and enqueue fresh links. -/
def crawlStep (robots : RobotFileParser) (fetch : String → Option String)
    (capped_depth : Int) (s : CrawlState) : CrawlState :=
  match s.queue with
  | [] => s
  | (url, depth) :: rest =>
    if (depth : Int) > capped_depth then
      { s with queue := rest, trace := s.trace ++ [(url, depth)] }
    else if canFetch robots "*" url = false then
      { s with queue := rest, trace := s.trace ++ [(url, depth)] }
    else
      match fetch url with
      | none => { s with queue := rest, trace := s.trace ++ [(url, depth)] }
      | some html =>
        let text := _extract_text html
        let newIndex :=
          if text ≠ "" then s.index ++ [{ url := url, text := text }] else s.index
        let sq := enqueueLinks (depth + 1) (_extract_links html url) s.seen rest
        { queue := sq.2, seen := sq.1, index := newIndex,
          trace := s.trace ++ [(url, depth)] }

/-- The `while queue and len(_index) < capped_pages` loop (line 173),
fuel-indexed: `crawlLoop … fuel s` is the state after at most `fuel`
iterations, and is the final state whenever `fuel` bounds the run's length. -/
def crawlLoop (robots : RobotFileParser) (fetch : String → Option String)
    (capped_pages capped_depth : Int) : Nat → CrawlState → CrawlState
  | 0, s => s
  | fuel + 1, s =>
    if s.queue ≠ [] ∧ (s.index.length : Int) < capped_pages then
      crawlLoop robots fetch capped_pages capped_depth fuel
        (crawlStep robots fetch capped_depth s)
    else s

/-! ## Result assembly and the session (`crawl_infinite_site`, lines 137-232) -/

/-- The structured result dict (lines 205-214 / 223-232). -/
structure CrawlResult where
  status : String
  pages_indexed : Nat
  max_pages : Int
  max_depth : Int
  pages : List (String × String)
  persisted_to_disk : Bool
  used_cached_index : Bool
  note : String
deriving Repr, DecidableEq

/-- Lines 200-203 / 219-222: `{url, snippet}` for the first `min(10, len)`
documents, snippet = `page["text"][:320].strip()`. -/
def summariesOf (pages : List Page) : List (String × String) :=
  (pages.take (min 10 pages.length)).map
    (fun p => (p.url, String.mk (stripChars (p.text.data.take 320))))

/-- Lines 193-214 of `_run_crawl` after the loop: save, fall back to the
pre-run cache when nothing was indexed, and build the result. -/
def runCrawlResult (robots : RobotFileParser) (fetch : String → Option String)
    (diskOk : Bool) (ts : String) (cached : List Page)
    (capped_pages capped_depth : Int) (fuel : Nat) : CrawlResult :=
  let final := crawlLoop robots fetch capped_pages capped_depth fuel initialCrawlState
  let persisted := (_save_index_to_disk final.index diskOk ts).1
  let fallback := final.index = [] ∧ cached ≠ []
  let index1 := if fallback then final.index ++ cached else final.index
  { status := if index1 ≠ [] then "ok" else "empty",
    pages_indexed := index1.length,
    max_pages := capped_pages,
    max_depth := capped_depth,
    pages := summariesOf index1,
    persisted_to_disk := persisted,
    used_cached_index := if fallback then true else false,
    note := "Mcp Server Crawl: Infinite.com same-origin crawl." }

/-- `crawl_infinite_site` (lines 137-232).  `cached` is the pre-run cache
(`cached_index`, line 146-149: the in-memory index, reloaded from disk when
empty); `timedOut` selects the `except asyncio.TimeoutError` branch, the
deadline expiring during the BFS loop (cooperative cancellation, so the
post-loop save never runs on that path). -/
def crawl_infinite_site (robots : RobotFileParser) (fetch : String → Option String)
    (diskOk : Bool) (ts : String) (cached : List Page) (timedOut : Bool)
    (fuel : Nat) (max_pages max_depth : Int) : CrawlResult :=
  let capped := _clamp_limits max_pages max_depth
  if timedOut then
    { status := "timeout",
      pages_indexed := cached.length,
      max_pages := capped.1,
      max_depth := capped.2,
      pages := summariesOf cached,
      persisted_to_disk := false,
      used_cached_index := !cached.isEmpty,
      note := "Mcp Server Crawl: Infinite.com same-origin crawl (timed out; returned cached index if available)." }
  else runCrawlResult robots fetch diskOk ts cached capped.1 capped.2 fuel

/-- A fetch oracle on which every request fails. -/
def fetchNone : String → Option String := fun _ => none

/-- A fetch oracle serving a link-free page at the crawl's start URL. -/
def fetchRootHello : String → Option String := fun u =>
  if u = "https://www.infinite.com" then some "<p>hello</p>" else none

/-! ## QueryEngine (spec §4.7)

Modelled from the spec: the QueryEngine component (tokenize / score / answer)
of spec §4.7 and §6 "Query operation" is not present under `src/` — the
repository's query tool is missing from the provided sources — so it is
modelled from the spec's words: lowercase maximal-alphanumeric-run
tokenization; score = sum over query tokens of case-insensitive substring
occurrence counts; `answer` guarded by the empty-index and empty-question
messages, then keeping only positive scores, sorting stably by score
descending, truncating to `topK`, and rendering `{url, snippet, score}` hits.
The outcome is an inductive so that each fixed message is distinct from every
hit list. -/

/-- Tokenizer helper: accumulate the current alphanumeric run (reversed). -/
def tokenizeAux : List Char → List Char → List String
  | [], run => if run.isEmpty then [] else [String.mk (run.reverse.map Char.toLower)]
  | c :: cs, run =>
    if c.isAlphanum then tokenizeAux cs (c :: run)
    else if run.isEmpty then tokenizeAux cs []
    else String.mk (run.reverse.map Char.toLower) :: tokenizeAux cs []

/-- Modelled from the spec: `tokenize(text)` — lowercase maximal alphanumeric
runs, in order; empty input gives the empty sequence. -/
def tokenize (s : String) : List String :=
  tokenizeAux s.data []

/-- Non-overlapping substring occurrence count (Python `str.count`). -/
def countOccAux (pat : List Char) : Nat → List Char → Nat
  | 0, _ => 0
  | _, [] => 0
  | fuel + 1, c :: cs =>
    if listIsPrefix pat (c :: cs) then
      1 + countOccAux pat fuel ((c :: cs).drop pat.length)
    else countOccAux pat fuel cs

/-- Occurrences of `pat` in `text`. -/
def countOccurrences (pat text : String) : Nat :=
  countOccAux pat.data text.data.length text.data

/-- Modelled from the spec: `score(tokens, docText)` — sum over query tokens
of the case-insensitive occurrence count in the document text (tokens are
already lowercase, so the text is lowercased for comparison). -/
def score (tokens : List String) (docText : String) : Nat :=
  (tokens.map (fun t => countOccurrences t (lowerStr docText))).sum

/-- Modelled from the spec: fixed snippet window width (the spec pins a
"fixed-width window" without pinning the width). -/
def SNIPPET_WIDTH : Nat := 160

/-- First query token (in query order) occurring in the lowercased text, with
its first occurrence position. -/
def firstTokenPos : List String → String → Option Nat
  | [], _ => none
  | t :: ts, lowText =>
    match findSubstrIdx t.data lowText.data with
    | some i => some i
    | none => firstTokenPos ts lowText

/-- Modelled from the spec: the snippet — a fixed-width window around the
first occurrence of the first occurring query token, clamped to the document
(nothing before position 0), trimmed. -/
def snippetOf (tokens : List String) (docText : String) : String :=
  match firstTokenPos tokens (lowerStr docText) with
  | none => String.mk (stripChars (docText.data.take SNIPPET_WIDTH))
  | some i =>
    String.mk (stripChars ((docText.data.drop (i - SNIPPET_WIDTH / 2)).take SNIPPET_WIDTH))

/-- Stable descending insertion by score: an element moves left only past
strictly smaller scores, preserving index order among equal scores. -/
def insertDesc (x : Page × Nat) : List (Page × Nat) → List (Page × Nat)
  | [] => [x]
  | y :: ys => if y.2 < x.2 then x :: y :: ys else y :: insertDesc x ys

/-- Stable sort, descending by score. -/
def sortByScoreDesc : List (Page × Nat) → List (Page × Nat)
  | [] => []
  | x :: xs => insertDesc x (sortByScoreDesc xs)

/-- Outcomes of `answer`: one of the three fixed guard messages, or a hit
list of `(url, snippet, score)` triples. -/
inductive AnswerOutcome where
  | noIndexMsg : AnswerOutcome
  | emptyQuestionMsg : AnswerOutcome
  | noRelevantMsg : AnswerOutcome
  | hits : List (String × String × Nat) → AnswerOutcome
deriving Repr, DecidableEq

/-- Modelled from the spec: `answer(question, topK)` over the index. -/
def answer (index : List Page) (question : String) (topK : Nat) : AnswerOutcome :=
  if index = [] then .noIndexMsg
  else
    let toks := tokenize question
    if toks = [] then .emptyQuestionMsg
    else
      let scored := (index.map (fun d => (d, score toks d.text))).filter
        (fun x => decide (0 < x.2))
      if scored = [] then .noRelevantMsg
      else
        .hits (((sortByScoreDesc scored).take topK).map
          (fun x => (x.1.url, snippetOf toks x.1.text, x.2)))


/-! ## Invariant predicates used by the crawl theorems -/

/-- URL shape produced by the crawl: same-origin, and either the (slash-
stripped) start URL or prefixed by `BASE_URL`. -/
def urlOk (u : String) : Prop :=
  _same_origin u = true ∧ (u = startUrl ∨ strStartsWith u BASE_URL = true)

/-- Invariant tying index, queue and seen-set together: every URL that is a
document's or a queued entry's URL appears at most once overall, has been
marked seen, and has the crawl's URL shape. -/
def originInv (s : CrawlState) : Prop :=
  (s.index.map Page.url ++ s.queue.map Prod.fst).Nodup ∧
  (∀ u ∈ s.index.map Page.url ++ s.queue.map Prod.fst, u ∈ s.seen) ∧
  (∀ u ∈ s.index.map Page.url ++ s.queue.map Prod.fst, urlOk u)

/-- The depths of the dequeue trace followed by the pending queue. -/
def depthsOf (s : CrawlState) : List Nat :=
  s.trace.map Prod.snd ++ s.queue.map Prod.snd

/-- BFS depth invariant: the trace-then-queue depth sequence is
non-decreasing, and any two pending entries are within one level. -/
def depthInv (s : CrawlState) : Prop :=
  (depthsOf s).Pairwise (· ≤ ·) ∧
  ∀ p ∈ s.queue, ∀ q ∈ s.queue, p.2 ≤ q.2 + 1

/-! # Theorems -/

/-! ## Claim C7 — empty index never written -/

/-- Claim C7: when the in-memory index is empty, `_save_index_to_disk` returns
`False` and writes nothing, for any disk condition and timestamp, so an empty
index never overwrites a previously written snapshot. -/
theorem save_empty_index_is_noop :
    ∀ (diskOk : Bool) (ts : String), _save_index_to_disk [] diskOk ts = (false, none) := by
  intro diskOk ts
  rfl

/-! ## Claim C2 — script/style content is NOT removed (code bug) -/

/-- Claim C2 (refuted; code bug): because the raw string `r"...</\\1>"` turns
the intended backreference into a literal backslash-`1`, the script/style
removal pass never matches real markup, so text occurring only inside
`<script>` or `<style>` elements survives into the extracted text. -/
theorem extract_text_keeps_script_and_style_content :
    _extract_text "<script>evil</script>" = "evil" ∧
    _extract_text "<style>secret</style>" = "secret" := by
  exact ⟨by decide, by decide⟩

/-! ## Claim C1 — robots failure is fail-closed, not fail-open (code bug) -/

/-- Claim C1 (refuted; code bug): when `robots.read()` raises (any
non-`HTTPError` failure), the parser keeps `last_checked = 0` and
`can_fetch` refuses every URL for every user agent, so the crawl discards
every dequeued URL: a fetchable start page yields an empty index, while the
same crawl under a successfully-read empty policy indexes it. -/
theorem robots_read_failure_blocks_every_url :
    (∀ useragent url, canFetch robotsAfterFailedRead useragent url = false) ∧
    (crawlLoop robotsAfterFailedRead fetchRootHello 40 2 3 initialCrawlState).index = [] ∧
    (crawlLoop robotsEmptyPolicy fetchRootHello 40 2 3 initialCrawlState).index =
      [{ url := "https://www.infinite.com", text := "hello" }] := by
  refine ⟨fun useragent url => rfl, by decide, by decide⟩

/-! ## Claim C8 — timeout with a cache -/

/-- Claim C8: a crawl whose loop exceeds the deadline while a non-empty prior
cache exists reports `status = "timeout"`, `pages_indexed` equal to the cache
length, `persisted_to_disk = false` and `used_cached_index = true`. -/
theorem crawl_timeout_returns_cache (robots : RobotFileParser)
    (fetch : String → Option String) (diskOk : Bool) (ts : String)
    (cached : List Page) (fuel : Nat) (mp md : Int) (h : cached ≠ []) :
    (crawl_infinite_site robots fetch diskOk ts cached true fuel mp md).status = "timeout" ∧
    (crawl_infinite_site robots fetch diskOk ts cached true fuel mp md).pages_indexed
      = cached.length ∧
    (crawl_infinite_site robots fetch diskOk ts cached true fuel mp md).persisted_to_disk
      = false ∧
    (crawl_infinite_site robots fetch diskOk ts cached true fuel mp md).used_cached_index
      = true := by
  obtain ⟨c, cs, rfl⟩ := List.exists_cons_of_ne_nil h
  simp [crawl_infinite_site]

/-- Witness for C8 at a concrete one-page cache. -/
theorem crawl_timeout_returns_cache_witness :
    (crawl_infinite_site robotsEmptyPolicy fetchNone true "t"
      [{ url := "u", text := "t1" }] true 1 40 2).status = "timeout" ∧
    (crawl_infinite_site robotsEmptyPolicy fetchNone true "t"
      [{ url := "u", text := "t1" }] true 1 40 2).pages_indexed
      = [({ url := "u", text := "t1" } : Page)].length ∧
    (crawl_infinite_site robotsEmptyPolicy fetchNone true "t"
      [{ url := "u", text := "t1" }] true 1 40 2).persisted_to_disk = false ∧
    (crawl_infinite_site robotsEmptyPolicy fetchNone true "t"
      [{ url := "u", text := "t1" }] true 1 40 2).used_cached_index = true :=
  crawl_timeout_returns_cache robotsEmptyPolicy fetchNone true "t"
    [{ url := "u", text := "t1" }] 1 40 2 (by decide)

/-! ## Claim C6 — snapshot round-trip -/

/-- Reloading a serialised page gives the page back. -/
theorem pageOfJson_pageToJson (p : Page) : pageOfJson (pageToJson p) = some p := rfl

/-- Reloading a serialised page list gives the list back. -/
theorem pagesOfJson_map (l : List Page) : pagesOfJson (l.map pageToJson) = some l := by
  induction l with
  | nil => rfl
  | cons p ps ih => simp [pagesOfJson, pageOfJson_pageToJson, ih]

/-- Claim C6: for every non-empty page list, saving succeeds and loading the
written snapshot back yields exactly the saved list (urls and texts unchanged,
in order); `created_at` is only carried in the payload, not in the documents. -/
theorem save_load_roundtrip (pages : List Page) (ts : String) (h : pages ≠ []) :
    (_save_index_to_disk pages true ts).1 = true ∧
    _load_index_from_disk (_save_index_to_disk pages true ts).2 = pages := by
  obtain ⟨p, ps, rfl⟩ := List.exists_cons_of_ne_nil h
  refine ⟨rfl, ?_⟩
  have h2 : _load_index_from_disk (_save_index_to_disk (p :: ps) true ts).2
      = (pagesOfJson ((p :: ps).map pageToJson)).getD [] := rfl
  rw [h2, pagesOfJson_map]
  rfl

/-- Witness for C6 at a concrete two-page index. -/
theorem save_load_roundtrip_witness :
    (_save_index_to_disk
      [{ url := "https://www.infinite.com/a", text := "alpha" },
       { url := "https://www.infinite.com/b", text := "beta" }] true "2025-01-01T00:00:00Z").1
      = true ∧
    _load_index_from_disk (_save_index_to_disk
      [{ url := "https://www.infinite.com/a", text := "alpha" },
       { url := "https://www.infinite.com/b", text := "beta" }] true "2025-01-01T00:00:00Z").2
      = [{ url := "https://www.infinite.com/a", text := "alpha" },
         { url := "https://www.infinite.com/b", text := "beta" }] :=
  save_load_roundtrip
    [{ url := "https://www.infinite.com/a", text := "alpha" },
     { url := "https://www.infinite.com/b", text := "beta" }] "2025-01-01T00:00:00Z" (by decide)

/-! ## Claim C10 — empty run with a cache falls back -/

/-- Claim C10: when the loop finishes (before the deadline) with nothing
indexed and a non-empty prior cache exists, the result is the cache:
`status = "ok"`, `pages_indexed` the cache length, `used_cached_index = true`,
`persisted_to_disk = false` (the save ran on the still-empty index). -/
theorem crawl_empty_run_falls_back_to_cache (robots : RobotFileParser)
    (fetch : String → Option String) (diskOk : Bool) (ts : String)
    (cached : List Page) (fuel : Nat) (mp md : Int)
    (h1 : (crawlLoop robots fetch (_clamp_limits mp md).1 (_clamp_limits mp md).2
            fuel initialCrawlState).index = [])
    (h2 : cached ≠ []) :
    (crawl_infinite_site robots fetch diskOk ts cached false fuel mp md).status = "ok" ∧
    (crawl_infinite_site robots fetch diskOk ts cached false fuel mp md).pages_indexed
      = cached.length ∧
    (crawl_infinite_site robots fetch diskOk ts cached false fuel mp md).used_cached_index
      = true ∧
    (crawl_infinite_site robots fetch diskOk ts cached false fuel mp md).persisted_to_disk
      = false := by
  simp only [crawl_infinite_site, runCrawlResult, Bool.false_eq_true, if_false, h1,
    _save_index_to_disk, if_pos rfl]
  simp [h2]

/-- Witness for C10: every fetch fails, so the live run indexes nothing, and
the one-page cache is returned. -/
theorem crawl_empty_run_falls_back_to_cache_witness :
    (crawl_infinite_site robotsEmptyPolicy fetchNone true "t"
      [{ url := "u", text := "t1" }] false 2 40 2).status = "ok" ∧
    (crawl_infinite_site robotsEmptyPolicy fetchNone true "t"
      [{ url := "u", text := "t1" }] false 2 40 2).pages_indexed
      = [({ url := "u", text := "t1" } : Page)].length ∧
    (crawl_infinite_site robotsEmptyPolicy fetchNone true "t"
      [{ url := "u", text := "t1" }] false 2 40 2).used_cached_index = true ∧
    (crawl_infinite_site robotsEmptyPolicy fetchNone true "t"
      [{ url := "u", text := "t1" }] false 2 40 2).persisted_to_disk = false :=
  crawl_empty_run_falls_back_to_cache robotsEmptyPolicy fetchNone true "t"
    [{ url := "u", text := "t1" }] 2 40 2 (by decide) (by decide)

/-! ## Claim C9 — query with zero term overlap (spec-modelled) -/

/-- Claim C9 counterexample: a question with no alphanumeric content has no
tokens, so "every token has zero occurrences" holds vacuously on a non-empty
index, yet `answer` returns the empty-question message, not the
no-relevant-content message. -/
theorem answer_vacuous_overlap_counterexample :
    ([({ url := "https://www.infinite.com", text := "hello world" } : Page)] ≠ []) ∧
    (∀ t ∈ tokenize "?!",
      ∀ d ∈ [({ url := "https://www.infinite.com", text := "hello world" } : Page)],
        countOccurrences t (lowerStr d.text) = 0) ∧
    answer [{ url := "https://www.infinite.com", text := "hello world" }] "?!" 3
      ≠ AnswerOutcome.noRelevantMsg := by
  refine ⟨by decide, by decide, by decide⟩

/-- Claim C9 (amended): on a non-empty index, for a question with at least one
token all of whose tokens have zero case-insensitive occurrences in every
indexed document's text, `answer` returns the fixed no-relevant-content
outcome — in particular never a hit list. -/
theorem answer_no_term_overlap (index : List Page) (q : String) (k : Nat)
    (h1 : index ≠ []) (h2 : tokenize q ≠ [])
    (h3 : ∀ d ∈ index, ∀ t ∈ tokenize q, countOccurrences t (lowerStr d.text) = 0) :
    answer index q k = AnswerOutcome.noRelevantMsg := by
  have hf : (index.map (fun d => (d, score (tokenize q) d.text))).filter
      (fun x => decide (0 < x.2)) = [] := by
    rw [List.filter_eq_nil_iff]
    intro x hx
    simp only [List.mem_map] at hx
    obtain ⟨d, hd, rfl⟩ := hx
    have hs : score (tokenize q) d.text = 0 := by
      apply List.sum_eq_zero
      intro y hy
      simp only [List.mem_map] at hy
      obtain ⟨t, ht, rfl⟩ := hy
      exact h3 d hd t ht
    simp [hs]
  unfold answer
  rw [if_neg h1, if_neg h2, if_pos hf]

/-- Witness for the amended C9 at a concrete index and question. -/
theorem answer_no_term_overlap_witness :
    answer [{ url := "u", text := "hello" }] "zzz" 3 = AnswerOutcome.noRelevantMsg :=
  answer_no_term_overlap [{ url := "u", text := "hello" }] "zzz" 3
    (by decide) (by decide) (by decide)

/-! ## Claim C3 — `len(Index) ≤ max_pages` -/

/-- Claim C3 counterexample: a crawl clamped to `max_pages = 1` whose fetches
all fail falls back to a two-page prior cache, so the returned result carries
an index longer than `max_pages`. -/
theorem crawl_result_can_exceed_max_pages :
    (crawl_infinite_site robotsEmptyPolicy fetchNone true "t"
      [{ url := "u", text := "t1" }, { url := "v", text := "t2" }] false 5 1 2).pages_indexed
      = 2 ∧
    (crawl_infinite_site robotsEmptyPolicy fetchNone true "t"
      [{ url := "u", text := "t1" }, { url := "v", text := "t2" }] false 5 1 2).max_pages
      = 1 ∧
    ¬ (((crawl_infinite_site robotsEmptyPolicy fetchNone true "t"
      [{ url := "u", text := "t1" }, { url := "v", text := "t2" }] false 5 1 2).pages_indexed : Int)
      ≤ (crawl_infinite_site robotsEmptyPolicy fetchNone true "t"
      [{ url := "u", text := "t1" }, { url := "v", text := "t2" }] false 5 1 2).max_pages) := by
  refine ⟨by decide, by decide, by decide⟩

/-! ## Claim C4 — document URL shape -/

/-- Claim C4 counterexample: the start URL is `_clean_url(BASE_URL)`, i.e. the
base URL with its trailing slash stripped, so the root document's url does not
start with `BASE_URL`. -/
theorem crawl_start_page_not_prefixed_by_base :
    ((crawlLoop robotsEmptyPolicy fetchRootHello 40 2 3 initialCrawlState).index.map Page.url)
      = ["https://www.infinite.com"] ∧
    strStartsWith "https://www.infinite.com" BASE_URL = false := by
  refine ⟨by decide, by decide⟩

/-- One loop iteration grows the index by at most one document. -/
theorem crawlStep_index_le (robots : RobotFileParser) (fetch : String → Option String)
    (cd : Int) (s : CrawlState) :
    (crawlStep robots fetch cd s).index.length ≤ s.index.length + 1 := by
  rcases hq : s.queue with _ | ⟨⟨url, depth⟩, rest⟩
  · simp [crawlStep, hq]
  · simp only [crawlStep, hq]
    split_ifs with h1 h2
    · simp
    · simp
    · cases hf : fetch url with
      | none => simp
      | some html =>
        simp only
        split_ifs with h3
        · simp
        · simp

/-- The loop guard keeps the index length at or below the page cap. -/
theorem crawlLoop_index_bound (robots : RobotFileParser) (fetch : String → Option String)
    (cp cd : Int) :
    ∀ (fuel : Nat) (s : CrawlState), (s.index.length : Int) ≤ cp →
      ((crawlLoop robots fetch cp cd fuel s).index.length : Int) ≤ cp := by
  intro fuel
  induction fuel with
  | zero => intro s h; exact h
  | succ n ih =>
    intro s h
    unfold crawlLoop
    split
    · next hcond =>
      apply ih
      have hle := crawlStep_index_le robots fetch cd s
      have hlt := hcond.2
      omega
    · exact h

/-- Claim C3 (amended): after every prefix of the loop's execution the
in-memory index holds at most `max_pages` (post-clamp) documents; and the
returned result's `pages_indexed` respects the bound whenever the
cached-index fallback was not used.  (When the fallback is used,
`pages_indexed` is the cached index's length, which may exceed the current
clamp — see the counterexample.) -/
theorem crawl_index_bounded_by_max_pages (robots : RobotFileParser)
    (fetch : String → Option String) (diskOk : Bool) (ts : String)
    (cached : List Page) (fuel : Nat) (mp md : Int)
    (h : (crawl_infinite_site robots fetch diskOk ts cached false fuel mp md).used_cached_index
      = false) :
    (∀ f : Nat,
      (((crawlLoop robots fetch (_clamp_limits mp md).1 (_clamp_limits mp md).2
          f initialCrawlState).index.length : Int) ≤ (_clamp_limits mp md).1)) ∧
    ((crawl_infinite_site robots fetch diskOk ts cached false fuel mp md).pages_indexed : Int)
      ≤ (_clamp_limits mp md).1 := by
  have hcp : (1 : Int) ≤ (_clamp_limits mp md).1 := le_max_left _ _
  have hbase : ((initialCrawlState.index.length : Int) ≤ (_clamp_limits mp md).1) := by
    simp only [initialCrawlState, List.length_nil, Nat.cast_zero]
    omega
  have hbound := fun f =>
    crawlLoop_index_bound robots fetch (_clamp_limits mp md).1 (_clamp_limits mp md).2
      f initialCrawlState hbase
  refine ⟨hbound, ?_⟩
  by_cases hfb : (crawlLoop robots fetch (_clamp_limits mp md).1 (_clamp_limits mp md).2
      fuel initialCrawlState).index = [] ∧ cached ≠ []
  · exfalso
    simp only [crawl_infinite_site, runCrawlResult, Bool.false_eq_true, if_false,
      if_pos hfb] at h
    exact Bool.true_eq_false ▸ h
  · simp only [crawl_infinite_site, runCrawlResult, Bool.false_eq_true, if_false,
      if_neg hfb]
    exact hbound fuel

/-- Witness for the amended C3 at a concrete run without fallback. -/
theorem crawl_index_bounded_by_max_pages_witness :
    (∀ f : Nat,
      (((crawlLoop robotsEmptyPolicy fetchNone (_clamp_limits 40 2).1 (_clamp_limits 40 2).2
          f initialCrawlState).index.length : Int) ≤ (_clamp_limits 40 2).1)) ∧
    ((crawl_infinite_site robotsEmptyPolicy fetchNone true "t" [] false 2 40 2).pages_indexed : Int)
      ≤ (_clamp_limits 40 2).1 :=
  crawl_index_bounded_by_max_pages robotsEmptyPolicy fetchNone true "t" [] 2 40 2 (by decide)

/-! ## Queue/seen-set lemmas -/

/-- Generic loop-invariant preservation for the BFS loop. -/
theorem crawlLoop_preserves (robots : RobotFileParser) (fetch : String → Option String)
    (cp cd : Int) (P : CrawlState → Prop)
    (hstep : ∀ s, P s → P (crawlStep robots fetch cd s)) :
    ∀ (fuel : Nat) (s : CrawlState), P s → P (crawlLoop robots fetch cp cd fuel s) := by
  intro fuel
  induction fuel with
  | zero => intro s h; exact h
  | succ n ih =>
    intro s h
    unfold crawlLoop
    split
    · exact ih _ (hstep s h)
    · exact h

/-- `enqueueLinks` appends to the queue a block of entries at the given depth,
all drawn from the link list. -/
theorem enqueueLinks_shape (d : Nat) (links : List String) :
    ∀ (seen : List String) (q : List (String × Nat)),
      ∃ ext, (enqueueLinks d links seen q).2 = q ++ ext ∧
        ∀ p ∈ ext, p.2 = d ∧ p.1 ∈ links := by
  induction links with
  | nil =>
    intro seen q
    exact ⟨[], by simp [enqueueLinks], by simp⟩
  | cons l ls ih =>
    intro seen q
    by_cases hmem : l ∈ seen
    · obtain ⟨ext, he, hp⟩ := ih seen q
      refine ⟨ext, ?_, ?_⟩
      · simpa [enqueueLinks, hmem] using he
      · intro p hp'
        exact ⟨(hp p hp').1, List.mem_cons_of_mem _ (hp p hp').2⟩
    · obtain ⟨ext, he, hp⟩ := ih (seen ++ [l]) (q ++ [(l, d)])
      refine ⟨(l, d) :: ext, ?_, ?_⟩
      · simp only [enqueueLinks, if_neg hmem]
        rw [he]
        simp
      · intro p hp'
        rcases List.mem_cons.mp hp' with h | h
        · subst h
          exact ⟨rfl, List.mem_cons_self _ _⟩
        · exact ⟨(hp p h).1, List.mem_cons_of_mem _ (hp p h).2⟩

/-- Every entry of the extended queue was pending before or is a fresh link. -/
theorem enqueueLinks_mem (d : Nat) (links seen : List String)
    (q : List (String × Nat)) (p : String × Nat)
    (hp : p ∈ (enqueueLinks d links seen q).2) : p ∈ q ∨ p.1 ∈ links := by
  obtain ⟨ext, he, hall⟩ := enqueueLinks_shape d links seen q
  rw [he] at hp
  rcases List.mem_append.mp hp with h | h
  · exact Or.inl h
  · exact Or.inr (hall p h).2

/-- `enqueueLinks` preserves global URL distinctness and keeps every tracked
URL inside the (grown) seen set. -/
theorem enqueueLinks_nodup (d : Nat) (links : List String) :
    ∀ (seen : List String) (q : List (String × Nat)) (I : List String),
      (I ++ q.map Prod.fst).Nodup → (∀ u ∈ I ++ q.map Prod.fst, u ∈ seen) →
      (I ++ (enqueueLinks d links seen q).2.map Prod.fst).Nodup ∧
      (∀ u ∈ I ++ (enqueueLinks d links seen q).2.map Prod.fst,
        u ∈ (enqueueLinks d links seen q).1) := by
  induction links with
  | nil =>
    intro seen q I h1 h2
    exact ⟨h1, h2⟩
  | cons l ls ih =>
    intro seen q I h1 h2
    by_cases hmem : l ∈ seen
    · simp only [enqueueLinks, if_pos hmem]
      exact ih seen q I h1 h2
    · simp only [enqueueLinks, if_neg hmem]
      apply ih (seen ++ [l]) (q ++ [(l, d)]) I
      · have hnotin : l ∉ I ++ q.map Prod.fst := fun hin => hmem (h2 l hin)
        simp only [List.map_append, List.map_cons, List.map_nil]
        rw [← List.append_assoc, List.nodup_append]
        refine ⟨h1, List.nodup_singleton l, ?_⟩
        intro a ha hb
        rw [List.mem_singleton] at hb
        subst hb
        exact hnotin ha
      · intro u hu
        simp only [List.map_append, List.map_cons, List.map_nil] at hu
        rw [← List.append_assoc] at hu
        rcases List.mem_append.mp hu with h | h
        · exact List.mem_append.mpr (Or.inl (h2 u h))
        · rw [List.mem_singleton] at h
          subst h
          exact List.mem_append.mpr (Or.inr (List.mem_singleton_self u))

/-- Deduplication only drops elements. -/
theorem mem_dedupKeepFirst (l : List String) :
    ∀ (seen : List String) (a : String), a ∈ dedupKeepFirst seen l → a ∈ l := by
  induction l with
  | nil =>
    intro seen a h
    simp [dedupKeepFirst] at h
  | cons x xs ih =>
    intro seen a h
    by_cases hm : x ∈ seen
    · simp only [dedupKeepFirst, if_pos hm] at h
      exact List.mem_cons_of_mem _ (ih seen a h)
    · simp only [dedupKeepFirst, if_neg hm] at h
      rcases List.mem_cons.mp h with h' | h'
      · subst h'
        exact List.mem_cons_self _ _
      · exact List.mem_cons_of_mem _ (ih (x :: seen) a h')

/-- Every link `_extract_links` returns passed its own filter: it starts with
`BASE_URL` and is same-origin. -/
theorem extract_links_sound (html base : String) :
    ∀ l ∈ _extract_links html base,
      strStartsWith l BASE_URL = true ∧ _same_origin l = true := by
  intro l hl
  simp only [_extract_links] at hl
  have hl' := mem_dedupKeepFirst _ _ _ hl
  rw [List.mem_filter] at hl'
  have h2 := hl'.2
  rw [Bool.and_eq_true] at h2
  exact h2

/-- One loop iteration preserves `originInv`. -/
theorem originInv_step (robots : RobotFileParser) (fetch : String → Option String)
    (cd : Int) (s : CrawlState) (h : originInv s) : originInv (crawlStep robots fetch cd s) := by
  obtain ⟨hnd, hseen, hok⟩ := h
  rcases hq : s.queue with _ | ⟨⟨url, depth⟩, rest⟩
  · simp only [crawlStep, hq]
    exact ⟨hnd, hseen, hok⟩
  · have hmap : s.queue.map Prod.fst = url :: rest.map Prod.fst := by
      rw [hq]
      rfl
    rw [hmap] at hnd hseen hok
    have hsub : List.Sublist (s.index.map Page.url ++ rest.map Prod.fst)
        (s.index.map Page.url ++ url :: rest.map Prod.fst) :=
      List.Sublist.append_left (List.sublist_cons_self _ _) _
    have hdrop : originInv { s with queue := rest, trace := s.trace ++ [(url, depth)] } := by
      refine ⟨hnd.sublist hsub, ?_, ?_⟩
      · intro u hu
        exact hseen u (hsub.mem hu)
      · intro u hu
        exact hok u (hsub.mem hu)
    simp only [crawlStep, hq]
    split_ifs with h1 h2
    · exact hdrop
    · exact hdrop
    · cases hf : fetch url with
      | none => exact hdrop
      | some html =>
        have hurl : urlOk url :=
          hok url (List.mem_append.mpr (Or.inr (List.mem_cons_self _ _)))
        simp only [originInv]
        split_ifs with htext
        · -- text non-empty: document appended
          have hpre1 : ((s.index.map Page.url ++ [url]) ++ rest.map Prod.fst).Nodup := by
            rw [List.append_assoc, List.singleton_append]
            exact hnd
          have hpre2 : ∀ u ∈ (s.index.map Page.url ++ [url]) ++ rest.map Prod.fst,
              u ∈ s.seen := by
            intro u hu
            rw [List.append_assoc, List.singleton_append] at hu
            exact hseen u hu
          obtain ⟨hnd', hseen'⟩ := enqueueLinks_nodup (depth + 1) (_extract_links html url)
            s.seen rest (s.index.map Page.url ++ [url]) hpre1 hpre2
          refine ⟨?_, ?_, ?_⟩
          · simpa [List.map_append] using hnd'
          · intro u hu
            apply hseen'
            simpa [List.map_append] using hu
          · intro u hu
            simp only [List.map_append, List.map_cons, List.map_nil] at hu
            rcases List.mem_append.mp hu with hu1 | hu2
            · rcases List.mem_append.mp hu1 with hi | hr
              · exact hok u (List.mem_append.mpr (Or.inl hi))
              · rw [List.mem_singleton] at hr
                subst hr
                exact hurl
            · obtain ⟨p, hp, rfl⟩ := List.mem_map.mp hu2
              rcases enqueueLinks_mem _ _ _ _ _ hp with hpr | hpl
              · exact hok p.1 (List.mem_append.mpr (Or.inr
                  (List.mem_cons_of_mem _ (List.mem_map_of_mem _ hpr))))
              · have hs := extract_links_sound html url p.1 hpl
                exact ⟨hs.2, Or.inr hs.1⟩
        · -- text empty: index unchanged
          have hpre1 : (s.index.map Page.url ++ rest.map Prod.fst).Nodup :=
            hnd.sublist hsub
          have hpre2 : ∀ u ∈ s.index.map Page.url ++ rest.map Prod.fst, u ∈ s.seen :=
            fun u hu => hseen u (hsub.mem hu)
          obtain ⟨hnd', hseen'⟩ := enqueueLinks_nodup (depth + 1) (_extract_links html url)
            s.seen rest (s.index.map Page.url) hpre1 hpre2
          refine ⟨hnd', hseen', ?_⟩
          intro u hu
          rcases List.mem_append.mp hu with hi | hu2
          · exact hok u (List.mem_append.mpr (Or.inl hi))
          · obtain ⟨p, hp, rfl⟩ := List.mem_map.mp hu2
            rcases enqueueLinks_mem _ _ _ _ _ hp with hpr | hpl
            · exact hok p.1 (List.mem_append.mpr (Or.inr
                (List.mem_cons_of_mem _ (List.mem_map_of_mem _ hpr))))
            · have hs := extract_links_sound html url p.1 hpl
              exact ⟨hs.2, Or.inr hs.1⟩

/-- The invariant holds at the seeded state. -/
theorem originInv_initial : originInv initialCrawlState := by
  refine ⟨?_, ?_, ?_⟩
  · decide
  · intro u hu
    simpa [initialCrawlState] using hu
  · intro u hu
    simp only [initialCrawlState, List.map_nil, List.map_cons, List.nil_append,
      List.mem_singleton] at hu
    subst hu
    exact ⟨by decide, Or.inl rfl⟩

/-- Claim C4 (amended): in every crawl run, every document the loop indexes
has a same-origin url that is either the start URL — `BASE_URL` with its
trailing slash stripped, which does NOT carry the trailing-slash prefix, see
the counterexample — or a URL prefixed by `BASE_URL`; and no two documents
share a url. -/
theorem crawl_index_urls_sameorigin_and_distinct (robots : RobotFileParser)
    (fetch : String → Option String) (cp cd : Int) (fuel : Nat) :
    ((crawlLoop robots fetch cp cd fuel initialCrawlState).index.map Page.url).Nodup ∧
    ∀ doc ∈ (crawlLoop robots fetch cp cd fuel initialCrawlState).index,
      _same_origin doc.url = true ∧
      (doc.url = startUrl ∨ strStartsWith doc.url BASE_URL = true) := by
  obtain ⟨hnd, hseen, hok⟩ := crawlLoop_preserves robots fetch cp cd originInv
    (fun s h => originInv_step robots fetch cd s h) fuel initialCrawlState originInv_initial
  constructor
  · exact hnd.sublist (List.sublist_append_left _ _)
  · intro doc hdoc
    exact hok doc.url (List.mem_append.mpr (Or.inl (List.mem_map_of_mem _ hdoc)))

/-! ## Claim C5 — breadth-first order -/

/-- A list of equal naturals is (weakly) sorted. -/
theorem pairwise_le_of_all_eq {l : List Nat} {a : Nat} (h : ∀ x ∈ l, x = a) :
    l.Pairwise (· ≤ ·) := by
  induction l with
  | nil => exact List.Pairwise.nil
  | cons x xs ih =>
    refine List.Pairwise.cons ?_ (ih fun y hy => h y (List.mem_cons_of_mem _ hy))
    intro y hy
    rw [h x (List.mem_cons_self _ _), h y (List.mem_cons_of_mem _ hy)]

/-- One loop iteration preserves the BFS depth invariant. -/
theorem depthInv_step (robots : RobotFileParser) (fetch : String → Option String)
    (cd : Int) (s : CrawlState) (h : depthInv s) : depthInv (crawlStep robots fetch cd s) := by
  obtain ⟨hpw, hq2⟩ := h
  rcases hq : s.queue with _ | ⟨⟨url, depth⟩, rest⟩
  · simp only [crawlStep, hq]
    exact ⟨hpw, hq2⟩
  · have hmap : s.queue.map Prod.snd = depth :: rest.map Prod.snd := by
      rw [hq]
      rfl
    rw [depthsOf, hmap] at hpw
    have hparts := List.pairwise_append.mp hpw
    obtain ⟨hT, hDR, hcross⟩ := hparts
    rw [List.pairwise_cons] at hDR
    obtain ⟨hdR, hR⟩ := hDR
    have hmemhead : ((url, depth) : String × Nat) ∈ s.queue := by
      rw [hq]
      exact List.mem_cons_self _ _
    have hrest_le : ∀ p ∈ rest, p.2 ≤ depth + 1 := by
      intro p hp
      exact hq2 p (by rw [hq]; exact List.mem_cons_of_mem _ hp) (url, depth) hmemhead
    have hrest_ge : ∀ p ∈ rest, depth ≤ p.2 := by
      intro p hp
      exact hdR p.2 (List.mem_map_of_mem _ hp)
    have hdrop : depthInv { s with queue := rest, trace := s.trace ++ [(url, depth)] } := by
      constructor
      · show ((s.trace ++ [(url, depth)]).map Prod.snd ++ rest.map Prod.snd).Pairwise (· ≤ ·)
        have heq : (s.trace ++ [(url, depth)]).map Prod.snd ++ rest.map Prod.snd
            = s.trace.map Prod.snd ++ (depth :: rest.map Prod.snd) := by
          simp
        rw [heq]
        exact hpw
      · intro p hp q hq'
        exact hq2 p (by rw [hq]; exact List.mem_cons_of_mem _ hp)
          q (by rw [hq]; exact List.mem_cons_of_mem _ hq')
    simp only [crawlStep, hq]
    split_ifs with h1 h2
    · exact hdrop
    · exact hdrop
    · cases hf : fetch url with
      | none => exact hdrop
      | some html =>
        dsimp only
        obtain ⟨ext, hqeq, hext⟩ :=
          enqueueLinks_shape (depth + 1) (_extract_links html url) s.seen rest
        have hext_snd : ∀ y ∈ ext.map Prod.snd, y = depth + 1 := by
          intro y hy
          obtain ⟨p, hp, rfl⟩ := List.mem_map.mp hy
          exact (hext p hp).1
        constructor
        · show ((s.trace ++ [(url, depth)]).map Prod.snd
              ++ ((enqueueLinks (depth + 1) (_extract_links html url) s.seen rest).2).map
                Prod.snd).Pairwise (· ≤ ·)
          rw [hqeq]
          have heq : (s.trace ++ [(url, depth)]).map Prod.snd ++ (rest ++ ext).map Prod.snd
              = s.trace.map Prod.snd
                ++ (depth :: (rest.map Prod.snd ++ ext.map Prod.snd)) := by
            simp
          rw [heq, List.pairwise_append]
          refine ⟨hT, ?_, ?_⟩
          · rw [List.pairwise_cons]
            constructor
            · intro y hy
              rcases List.mem_append.mp hy with hy1 | hy2
              · exact hdR y hy1
              · rw [hext_snd y hy2]
                omega
            · rw [List.pairwise_append]
              refine ⟨hR, pairwise_le_of_all_eq hext_snd, ?_⟩
              intro a ha b hb
              obtain ⟨p, hp, rfl⟩ := List.mem_map.mp ha
              rw [hext_snd b hb]
              have := hrest_le p hp
              omega
          · intro a ha b hb
            rcases List.mem_cons.mp hb with rfl | hb'
            · exact hcross a ha b (List.mem_cons_self _ _)
            · rcases List.mem_append.mp hb' with hb1 | hb2
              · exact hcross a ha b (List.mem_cons_of_mem _ hb1)
              · have hadep : a ≤ depth := hcross a ha depth (List.mem_cons_self _ _)
                rw [hext_snd b hb2]
                omega
        · intro p hp q hq'
          dsimp only at hp hq'
          rw [hqeq] at hp hq'
          rcases List.mem_append.mp hp with hp1 | hp2 <;>
            rcases List.mem_append.mp hq' with hq1 | hq3
          · exact hq2 p (by rw [hq]; exact List.mem_cons_of_mem _ hp1)
              q (by rw [hq]; exact List.mem_cons_of_mem _ hq1)
          · have h1 := hrest_le p hp1
            have h2 := (hext q hq3).1
            omega
          · have h1 := (hext p hp2).1
            have h2 := hrest_ge q hq1
            omega
          · have h1 := (hext p hp2).1
            have h2 := (hext q hq3).1
            omega

/-- The depth invariant holds at the seeded state. -/
theorem depthInv_initial : depthInv initialCrawlState := by
  constructor
  · decide
  · intro p hp q hq
    simp only [initialCrawlState, List.mem_singleton] at hp hq
    subst hp
    subst hq
    omega

/-- Claim C5: the traversal is strict breadth-first — over any prefix of any
crawl run, the depths of the dequeued `(url, depth)` pairs are non-decreasing
in dequeue order, and every pair still pending in the queue is at least as
deep as every pair already dequeued, so nothing discovered at depth `d`
(enqueued at `d + 1`) is fetched before the remaining depth-`d` work. -/
theorem crawl_bfs_depths_monotone (robots : RobotFileParser)
    (fetch : String → Option String) (cp cd : Int) (fuel : Nat) :
    ((crawlLoop robots fetch cp cd fuel initialCrawlState).trace.map Prod.snd).Pairwise
      (· ≤ ·) ∧
    ∀ p ∈ (crawlLoop robots fetch cp cd fuel initialCrawlState).trace,
      ∀ q ∈ (crawlLoop robots fetch cp cd fuel initialCrawlState).queue, p.2 ≤ q.2 := by
  obtain ⟨hpw, hcond⟩ := crawlLoop_preserves robots fetch cp cd depthInv
    (fun s h => depthInv_step robots fetch cd s h) fuel initialCrawlState depthInv_initial
  rw [depthsOf, List.pairwise_append] at hpw
  obtain ⟨h1, h2, hcross⟩ := hpw
  refine ⟨h1, ?_⟩
  intro p hp q hq
  exact hcross p.2 (List.mem_map_of_mem _ hp) q.2 (List.mem_map_of_mem _ hq)
